import Mathlib

/-!
Verification of the S3 sink batching/request-building pipeline
(`src/sinks/aws_s3/sink.rs`) against its natural-language specification.

Byte buffers (`Bytes`, `BytesMut`) are modelled as `List Nat`; each list
element stands for one byte.  External collaborators (serializer, framer,
transformer, partitioner, compression, clock, uuid source) are taken as
explicit function parameters, matching the spec's interface section.
-/

namespace VectorS3

/-- A byte buffer (`BytesMut` / `Bytes` in the source). -/
abbrev Bytes := List Nat

/-- An acknowledgment ticket attached to an event (vector's event finalizer). -/
structure EventFinalizer where
  fid : Nat
deriving DecidableEq, Repr

/-- An opaque structured event record carrying application data plus attached
finalizer handles (`crate::event::Event`). -/
structure Event where
  data : String
  finalizers : List EventFinalizer
deriving DecidableEq, Repr

/-- Source `EncodedEvent`: the original event paired with its encoded byte
form. -/
structure EncodedEvent where
  inner : Event
  encoded : Bytes
deriving DecidableEq, Repr

/-- Source `S3PartitionKey` (s3_common::partitioner): the routing key. The source
file reads its `key_prefix` and `ssekms_key_id` fields. -/
structure S3PartitionKey where
  keyPrefixStr : String
  ssekmsKeyId : Option String
deriving DecidableEq, Repr

/-- A panic of the Rust code (an `unwrap`/`expect` firing, or an integer
underflow in debug mode), which aborts the whole stream task. -/
inductive Panic where
  | unwrapPanic
  | framingPanic
deriving DecidableEq, Repr

/-- Source `ByteSizeOf` for `EncodedEvent`: `allocated_bytes` returns the length of
the encoded buffer. -/
def EncodedEvent.allocated_bytes (e : EncodedEvent) : Nat :=
  e.encoded.length

/-- Source `size_of` delegates to `allocated_bytes`. -/
def EncodedEvent.size_of (e : EncodedEvent) : Nat :=
  e.allocated_bytes

/-- Source `WrappedPartitioner::partition`: delegates partitioning of an
`EncodedEvent` to the inner partitioner applied to the inner `Event`. -/
def wrapped_partition (part : Event → Option S3PartitionKey)
    (item : EncodedEvent) : Option S3PartitionKey :=
  part item.inner

/-- Source `S3Sink::transform_and_encode_event`: clone the event, transform the
copy, serialize the copy (`.unwrap()` — an encode error panics), and pair
the untouched original with the encoded bytes.  The serializer is a
fallible external collaborator `ser : Event → Option Bytes`. -/
def transform_and_encode_event (tr : Event → Event) (ser : Event → Option Bytes)
    (event : Event) : Except Panic EncodedEvent :=
  let toEncode := tr event
  match ser toEncode with
  | some encoded => .ok { inner := event, encoded := encoded }
  | none => .error .unwrapPanic

/-- Configuration of the combined encoder and framer used while building the
payload: the batch-prefix and batch-suffix bytes of the combined
`Encoder<Framer>` and the separator bytes the framer writes between two
consecutive events.  These come from the codecs crate (not part of the file
under verification) and are arbitrary byte strings here. -/
structure EncCfg where
  batchPrefixBytes : Bytes
  batchSuffixBytes : Bytes
  sepBytes : Bytes
deriving DecidableEq, Repr

/-- The loop of `S3Sink::prepare_payload`: append each buffer, decrementing
`remaining`, and write the framer separator after a buffer only while
buffers remain.  The decrement of the `usize` counter is guarded: a
decrement at zero would be an underflow and is modelled as `none`. -/
def prepare_payload_loop (sepBytes : Bytes) :
    List Bytes → Bytes → Nat → Option Bytes
  | [], payload, _ => some payload
  | buf :: rest, payload, remaining =>
    if remaining = 0 then
      none
    else
      let remaining' := remaining - 1
      let payload' := payload ++ buf
      let payload'' := if remaining' > 0 then payload' ++ sepBytes else payload'
      prepare_payload_loop sepBytes rest payload'' remaining'

/-- Source `S3Sink::prepare_payload`: batch prefix, then the encoded buffers with
the framing separator between consecutive buffers only, then the batch
suffix. -/
def prepare_payload (cfg : EncCfg) (encoded : List Bytes) : Option Bytes :=
  (prepare_payload_loop cfg.sepBytes encoded cfg.batchPrefixBytes encoded.length).map
    (fun payload => payload ++ cfg.batchSuffixBytes)

/-- Specification-side framing (spec section 4.4 step 3): each event's bytes
in order, a separator between consecutive events only — never after the
last. -/
def joinWithSep (sepBytes : Bytes) : List Bytes → Bytes
  | [] => []
  | [b] => b
  | b :: rest => b ++ sepBytes ++ joinWithSep sepBytes rest

/-- Specification-side chunk sequence of the framed payload: each chunk is
tagged `true` when it is a separator and `false` when it is an event body.
Flattening the chunk bodies yields `joinWithSep`. -/
def framedChunks (sepBytes : Bytes) : List Bytes → List (Bool × Bytes)
  | [] => []
  | [b] => [(false, b)]
  | b :: rest => (false, b) :: (true, sepBytes) :: framedChunks sepBytes rest

/-- Finalizable for a vector of events (take_finalizers): drain the
finalizer handles of every event, merging them in order.  Returns the merged
handles together with the drained events. -/
def take_finalizers (events : List Event) : List EventFinalizer × List Event :=
  (events.flatMap (fun e => e.finalizers),
   events.map (fun e => { e with finalizers := [] }))

/-- Source `RequestMetadata` (vector_common): aggregate counters computed at
request-build time.  The source constructs it as
`RequestMetadata::new(event_count, events_byte_size, request_encoded_size,
request_wire_size, grouped_sizes)`. -/
structure RequestMetadata where
  eventCount : Nat
  eventsByteSize : Nat
  requestEncodedSize : Nat
  requestWireSize : Nat
  groupedSizes : List Nat
deriving DecidableEq, Repr

/-- Source `S3Metadata` (s3_common::service): per-request routing metadata carrying
the partition key, the object key string and the finalizer set. -/
structure S3Metadata where
  partitionKey : S3PartitionKey
  s3Key : String
  finalizers : List EventFinalizer
deriving DecidableEq, Repr

/-- Source `S3Sink::prepare_request_data`: split the encoded events into the
original events and their buffers while accumulating the grouped size
counters, take the finalizers of all events, build the `S3Metadata` whose
object key starts as the partition key's routing-prefix string, frame the
payload, and build the `RequestMetadata` with the event count, the summed
encoded size, and the payload length as both encoded and wire size.
`none` stands for the defensive framing panic inside `prepare_payload`. -/
def prepare_request_data (cfg : EncCfg) (partitionKey : S3PartitionKey)
    (encodedEvents : List EncodedEvent) :
    Option (S3Metadata × RequestMetadata × Bytes) :=
  let groupedSizes := encodedEvents.map (fun e => e.encoded.length)
  let events := encodedEvents.map (fun e => e.inner)
  let encoded := encodedEvents.map (fun e => e.encoded)
  let eventsEncodedSize := (encoded.map List.length).sum
  let taken := take_finalizers events
  let finalizers := taken.1
  let events' := taken.2
  let s3KeyPrefixStr := partitionKey.keyPrefixStr
  let metadata : S3Metadata :=
    { partitionKey := partitionKey, s3Key := s3KeyPrefixStr, finalizers := finalizers }
  match prepare_payload cfg encoded with
  | none => none
  | some payload =>
    some (metadata,
      { eventCount := events'.length
        eventsByteSize := eventsEncodedSize
        requestEncodedSize := payload.length
        requestWireSize := payload.length
        groupedSizes := groupedSizes },
      payload)

/-- Modelled from the spec: the compression strategy interface (spec section 6;
the concrete type lives in sinks::util, not under src/): a compress
function over bytes, a canonical file extension, and an optional
content-encoding label. -/
structure Compression where
  compressFn : Bytes → Bytes
  ext : String
  contentEncoding : Option String

/-- The `none` compression scheme: identity on bytes, no content-encoding. -/
def Compression.noCompression : Compression :=
  { compressFn := fun b => b, ext := "log", contentEncoding := Option.none }

/-- Modelled from the spec: `S3Options` (s3_common::config, not under src/)
— the destination-options map attached to a request.  The source file reads
and writes only its server-side-encryption key id field; every other
recognized option is kept as the remaining option map. -/
structure S3Options where
  ssekmsKeyId : Option String
  restOptions : List (String × String)
deriving DecidableEq, Repr

/-- Modelled from the spec: `EncodeResult` (sinks::util::request_builder,
not under src/).  The source uses only its `uncompressed` constructor,
which wraps a payload to which no compression has been applied, and
`into_payload`, which returns the wrapped bytes unchanged. -/
structure EncodeResult where
  payload : Bytes
deriving DecidableEq, Repr

/-- Source `EncodeResult::uncompressed`. -/
def EncodeResult.uncompressed (b : Bytes) : EncodeResult :=
  { payload := b }

/-- Source `EncodeResult::into_payload`. -/
def EncodeResult.into_payload (r : EncodeResult) : Bytes :=
  r.payload

/-- Source `S3Request` (s3_common::service): the built request handed to the
delivery service. -/
structure S3Request where
  body : Bytes
  bucket : String
  metadata : S3Metadata
  requestMetadata : RequestMetadata
  contentEncoding : Option String
  options : S3Options
deriving DecidableEq, Repr

/-- Source `S3RequestOptions` from the source (the builder-wide configuration).
The unused encoder tuple field is omitted; the claims never consult it. -/
structure S3RequestOptions where
  bucket : String
  filenameTimeFormat : String
  filenameAppendUuid : Bool
  filenameExtension : Option String
  apiOptions : S3Options
  compression : Compression

/-- Source `S3RequestOptions::build_request`.  The two effects of the source —
reading the wall clock through chrono's formatter and drawing a fresh
uuid — are injected as the `formatTime` function applied to the configured
pattern at the current instant `now`, and the `newUuid` string. -/
def build_request (formatTime : String → Nat → String) (now : Nat)
    (newUuid : String) (opts : S3RequestOptions) (s3metadata : S3Metadata)
    (requestMetadata : RequestMetadata) (payload : EncodeResult) : S3Request :=
  let formattedTs := formatTime opts.filenameTimeFormat now
  let filename :=
    if opts.filenameAppendUuid then formattedTs ++ "-" ++ newUuid else formattedTs
  let ssekmsKeyId := s3metadata.partitionKey.ssekmsKeyId
  let s3Options := { opts.apiOptions with ssekmsKeyId := ssekmsKeyId }
  let extension := opts.filenameExtension.getD opts.compression.ext
  let s3Key := s3metadata.s3Key ++ filename ++ "." ++ extension
  { body := payload.into_payload
    bucket := opts.bucket
    metadata := { s3metadata with s3Key := s3Key }
    requestMetadata := requestMetadata
    contentEncoding := opts.compression.contentEncoding
    options := s3Options }

/-- Source `S3Sink::process_batch`: prepare the request data for the batch, then
build the request, wrapping the payload as
`EncodeResult::uncompressed(payload.freeze())`. -/
def process_batch (cfg : EncCfg) (formatTime : String → Nat → String)
    (now : Nat) (newUuid : String) (opts : S3RequestOptions)
    (batch : S3PartitionKey × List EncodedEvent) : Option S3Request :=
  (prepare_request_data cfg batch.1 batch.2).map
    (fun d => build_request formatTime now newUuid opts d.1 d.2.1
      (EncodeResult.uncompressed d.2.2))

/-- Modelled from the spec: the Batcher (vector_core's batched_partitioned
combinator, not under src/).  Per spec section 4.3 it groups the partitioned
stream into per-key batches, each batch holding, in arrival order, events
that partition to that batch's key; the key type here is
Option S3PartitionKey, exactly as produced by the wrapped partitioner, so
keyless events are grouped under the none key.  Size/time bounds only split
a key's events into several batches and are immaterial to the claims; the
model emits one batch per distinct key, keys in first-arrival order. -/
def batched_partitioned (part : EncodedEvent → Option S3PartitionKey)
    (items : List EncodedEvent) :
    List (Option S3PartitionKey × List EncodedEvent) :=
  ((items.map part).dedup).map
    (fun k => (k, items.filter (fun e => part e = k)))

/-- The filter stage of `run_inner`
(`.filter_map(|(key, batch)| ... key.map(move |k| (k, batch)))`): drop every
batch whose key is none, unwrap the key of the rest. -/
def filter_keyed (batches : List (Option S3PartitionKey × List EncodedEvent)) :
    List (S3PartitionKey × List EncodedEvent) :=
  batches.filterMap (fun kb => kb.1.map (fun k => (k, kb.2)))

/-- The map stage of `run_inner` applied to a finite input stream: each
event is transformed and encoded in turn; a panic on any event aborts the
whole stream with that panic. -/
def encode_stream (g : Event → Except Panic EncodedEvent) :
    List Event → Except Panic (List EncodedEvent)
  | [] => Except.ok []
  | e :: rest =>
    match g e with
    | Except.error p => Except.error p
    | Except.ok ee => (encode_stream g rest).map (fun l => ee :: l)

/-- The concurrent-map stage of `run_inner` applied to the surviving keyed
batches: build one request per batch; a defensive framing panic aborts. -/
def build_requests (b : S3PartitionKey × List EncodedEvent → Option S3Request) :
    List (S3PartitionKey × List EncodedEvent) → Except Panic (List S3Request)
  | [] => Except.ok []
  | kb :: rest =>
    match b kb with
    | Option.none => Except.error Panic.framingPanic
    | Option.some r => (build_requests b rest).map (fun rs => r :: rs)

/-- Source `S3Sink::run_inner` on a finite input stream: transform+encode each
event (a panic there aborts the whole stream), batch by partition key,
filter out the keyless batches, and build one request per surviving batch
(a defensive framing panic likewise aborts). -/
def run_inner (tr : Event → Event) (ser : Event → Option Bytes)
    (part : Event → Option S3PartitionKey) (cfg : EncCfg)
    (formatTime : String → Nat → String) (now : Nat) (newUuid : String)
    (opts : S3RequestOptions) (input : List Event) :
    Except Panic (List S3Request) := do
  let encoded ← encode_stream (transform_and_encode_event tr ser) input
  let batches := batched_partitioned (wrapped_partition part) encoded
  let keyed := filter_keyed batches
  build_requests (process_batch cfg formatTime now newUuid opts) keyed

/-- Modelled from the spec: the Driver (vector_core, not under src/), spec
section 4.5 — for each delivered request it invokes every finalizer attached
to that request with the response outcome (true on success, false on
failure).  Returns the list of performed invocations. -/
def driver_invocations (respond : S3Request → Bool) (reqs : List S3Request) :
    List (EventFinalizer × Bool) :=
  reqs.flatMap (fun r => r.metadata.finalizers.map (fun f => (f, respond r)))

/-- Modelled from the spec: `RequestMetadataBuilder::from_events`
(sinks::util::metadata, not under src/) — records the pre-encoding
aggregate counters of the events. -/
structure RequestMetadataBuilder where
  eventCount : Nat
deriving DecidableEq, Repr

/-- Source `S3RequestOptions::split_input` (the RequestBuilder trait path): build
the metadata builder from the events, take the finalizers of every event,
and build the `S3Metadata` from the partition key's routing-prefix string
and those finalizers, returning the drained events for encoding. -/
def split_input (input : S3PartitionKey × List Event) :
    S3Metadata × RequestMetadataBuilder × List Event :=
  let partitionKey := input.1
  let events := input.2
  let builder : RequestMetadataBuilder := { eventCount := events.length }
  let taken := take_finalizers events
  let finalizers := taken.1
  let events' := taken.2
  let s3KeyPrefixStr := partitionKey.keyPrefixStr
  let metadata : S3Metadata :=
    { partitionKey := partitionKey, s3Key := s3KeyPrefixStr, finalizers := finalizers }
  (metadata, builder, events')

/-- Specification-side payload shape (spec section 4.4 step 3): the batch
prefix, the event buffers joined with the separator between consecutive
buffers only, and the batch suffix. -/
def payload_spec (cfg : EncCfg) (bufs : List Bytes) : Bytes :=
  cfg.batchPrefixBytes ++ joinWithSep cfg.sepBytes bufs ++ cfg.batchSuffixBytes

/-- The S3Metadata value prepare_request_data produces for a batch: the
partition key, the key's routing-prefix string as the initial object key,
and the concatenation of the finalizers of every event of the batch. -/
def metadata_spec (key : S3PartitionKey) (batch : List EncodedEvent) : S3Metadata :=
  { partitionKey := key
    s3Key := key.keyPrefixStr
    finalizers := batch.flatMap (fun e => e.inner.finalizers) }

/-- The RequestMetadata value prepare_request_data produces for a batch. -/
def request_metadata_spec (cfg : EncCfg) (batch : List EncodedEvent) :
    RequestMetadata :=
  { eventCount := batch.length
    eventsByteSize := (batch.map (fun e => e.encoded.length)).sum
    requestEncodedSize := (payload_spec cfg (batch.map (fun e => e.encoded))).length
    requestWireSize := (payload_spec cfg (batch.map (fun e => e.encoded))).length
    groupedSizes := batch.map (fun e => e.encoded.length) }

/-- Concrete fixture: a partition key. -/
def fxKey : S3PartitionKey :=
  { keyPrefixStr := "logs/", ssekmsKeyId := some "kms-1" }

/-- Concrete fixture: encoder configuration resembling a JSON array codec
(prefix 0x5b, suffix 0x5d, separator 0x2c). -/
def fxCfg : EncCfg :=
  { batchPrefixBytes := [91], batchSuffixBytes := [93], sepBytes := [44] }

/-- Concrete fixture: encoder configuration with empty prefix, suffix and
separator. -/
def fxCfg0 : EncCfg :=
  { batchPrefixBytes := [], batchSuffixBytes := [], sepBytes := [] }

/-- Concrete fixture: a clock formatter returning a fixed timestamp text. -/
def fxFt : String → Nat → String := fun _ _ => "2026-01-01"

/-- Concrete fixture: builder-wide request options with no compression. -/
def fxOpts : S3RequestOptions :=
  { bucket := "bkt"
    filenameTimeFormat := "%F"
    filenameAppendUuid := false
    filenameExtension := Option.none
    apiOptions := { ssekmsKeyId := Option.none, restOptions := [("acl", "private")] }
    compression := Compression.noCompression }

/-- Concrete fixture: an identity transformer. -/
def fxTr : Event → Event := fun e => e

/-- Concrete fixture: a serializer that fails on events whose data is "bad"
and otherwise encodes an event as the one-byte buffer holding its data
length. -/
def fxSer : Event → Option Bytes :=
  fun e => if e.data = "bad" then Option.none else Option.some [e.data.length]

/-- Concrete fixture: a partitioner that cannot route events whose data is
"drop" and routes every other event to fxKey. -/
def fxPart : Event → Option S3PartitionKey :=
  fun e => if e.data = "drop" then Option.none else Option.some fxKey

/-- Concrete fixture: an unroutable event carrying finalizer 1. -/
def fxE1 : Event := { data := "drop", finalizers := [⟨1⟩] }

/-- Concrete fixture: a routable event carrying finalizer 2. -/
def fxE2 : Event := { data := "aa", finalizers := [⟨2⟩] }

/-- Concrete fixture: an event carrying finalizer 3 whose encoding fails. -/
def fxBad : Event := { data := "bad", finalizers := [⟨3⟩] }

/-- Concrete fixture: the requests the pipeline builds for the input stream
holding the unroutable event fxE1 followed by the routable event fxE2. -/
def fxReqs : List S3Request :=
  (run_inner fxTr fxSer fxPart fxCfg fxFt 0 "u" fxOpts [fxE1, fxE2]).toOption.getD []

/-- Concrete fixture: a toy compression scheme other than none — it shrinks
every buffer to the single byte 9, labels gzip content-encoding and carries
the canonical gzip extension. -/
def fxGzip : Compression :=
  { compressFn := fun _ => [9], ext := "log.gz", contentEncoding := some "gzip" }

/-- Concrete fixture: builder-wide request options configured with the toy
gzip compression scheme. -/
def fxOptsGzip : S3RequestOptions := { fxOpts with compression := fxGzip }

/-- Concrete fixture: a transformer that appends a label to the data. -/
def fxTr9 : Event → Event := fun e => { e with data := e.data ++ "!" }

/-- Concrete fixture: a serializer encoding an event as the one-byte buffer
holding its data length; it never fails. -/
def fxSer9 : Event → Option Bytes := fun e => Option.some [e.data.length]

/-- Concrete fixture: an event carrying finalizer 5. -/
def fxE9 : Event := { data := "a", finalizers := [⟨5⟩] }

/-- Decidable equality of Except values with decidable components. -/
instance instDecEqExcept {e a : Type} [DecidableEq e] [DecidableEq a] :
    DecidableEq (Except e a) := fun x y =>
  match x, y with
  | Except.error u, Except.error v =>
    if h : u = v then Decidable.isTrue (by rw [h])
    else Decidable.isFalse (fun hc => by cases hc; exact h rfl)
  | Except.error _, Except.ok _ => Decidable.isFalse (fun hc => by cases hc)
  | Except.ok _, Except.error _ => Decidable.isFalse (fun hc => by cases hc)
  | Except.ok u, Except.ok v =>
    if h : u = v then Decidable.isTrue (by rw [h])
    else Decidable.isFalse (fun hc => by cases hc; exact h rfl)

/-- One unfolding step of the payload loop on a cons cell, with the counter
equal to the list length. -/
theorem prepare_payload_loop_cons (sep b : Bytes) (rest : List Bytes) (acc : Bytes) :
    prepare_payload_loop sep (b :: rest) acc (rest.length + 1) =
      prepare_payload_loop sep rest
        (if rest.length > 0 then acc ++ b ++ sep else acc ++ b) rest.length := by
  rw [prepare_payload_loop]
  simp

/-- The payload loop, started with the list's length as the counter, never
underflows and produces the separator-joined concatenation. -/
theorem prepare_payload_loop_eq (sep : Bytes) :
    ∀ (l : List Bytes) (acc : Bytes),
      prepare_payload_loop sep l acc l.length = some (acc ++ joinWithSep sep l) := by
  intro l
  induction l with
  | nil => intro acc; simp [prepare_payload_loop, joinWithSep]
  | cons b rest ih =>
    intro acc
    rw [show (b :: rest).length = rest.length + 1 from rfl, prepare_payload_loop_cons]
    cases rest with
    | nil => simp [prepare_payload_loop, joinWithSep]
    | cons c rs =>
      simp only [List.length_cons, Nat.succ_pos, if_pos]
      simp only [List.length_cons] at ih
      rw [ih]
      simp [joinWithSep, List.append_assoc]

/-- The source payload preparation equals the specification payload shape on
every input, and in particular never hits its defensive panic. -/
theorem prepare_payload_eq (cfg : EncCfg) (encoded : List Bytes) :
    prepare_payload cfg encoded = some (payload_spec cfg encoded) := by
  simp [prepare_payload, prepare_payload_loop_eq, payload_spec, List.append_assoc]

/-- Joining with separators equals flattening the tagged chunk sequence. -/
theorem joinWithSep_eq_chunks (sep : Bytes) :
    ∀ l, joinWithSep sep l = ((framedChunks sep l).map Prod.snd).flatten := by
  intro l
  induction l with
  | nil => simp [joinWithSep, framedChunks]
  | cons b rest ih =>
    cases rest with
    | nil => simp [joinWithSep, framedChunks]
    | cons c rs => simp [joinWithSep, framedChunks, ih]

/-- The chunk sequence holds exactly one separator fewer than it holds
event bodies. -/
theorem framedChunks_sep_count (sep : Bytes) :
    ∀ l : List Bytes,
      ((framedChunks sep l).filter (fun c => c.1)).length = l.length - 1 := by
  intro l
  induction l with
  | nil => simp [framedChunks]
  | cons b rest ih =>
    cases rest with
    | nil => simp [framedChunks]
    | cons c rs =>
      simp only [framedChunks, List.filter_cons, List.length_cons] at ih ⊢
      simp at ih ⊢
      exact ih

/-- The non-separator chunks are exactly the event bodies, in order. -/
theorem framedChunks_bodies_eq (sep : Bytes) :
    ∀ l : List Bytes,
      ((framedChunks sep l).filter (fun c => !c.1)).map Prod.snd = l := by
  intro l
  induction l with
  | nil => simp [framedChunks]
  | cons b rest ih =>
    cases rest with
    | nil => simp [framedChunks]
    | cons c rs => simp [framedChunks] at ih ⊢; exact ih

/-- The last chunk of the framed sequence is never a separator. -/
theorem framedChunks_last_not_sep (sep : Bytes) :
    ∀ (l : List Bytes) (c : Bool × Bytes),
      (framedChunks sep l).getLast? = some c → c.1 = false := by
  intro l
  induction l with
  | nil => intro c h; simp [framedChunks] at h
  | cons b rest ih =>
    intro cc h
    cases rest with
    | nil =>
      simp [framedChunks] at h
      rw [← h]
    | cons c rs =>
      apply ih
      rw [← h]
      cases hrs : framedChunks sep (c :: rs) with
      | nil =>
        cases rs with
        | nil => simp [framedChunks] at hrs
        | cons d ds => simp [framedChunks] at hrs
      | cons x xs =>
        simp [framedChunks, hrs, List.getLast?_cons_cons]

/-- Closed form of prepare_request_data: it always succeeds and returns the
specification metadata, request-metadata and payload values. -/
theorem prepare_request_data_eq (cfg : EncCfg) (key : S3PartitionKey)
    (batch : List EncodedEvent) :
    prepare_request_data cfg key batch =
      some (metadata_spec key batch, request_metadata_spec cfg batch,
        payload_spec cfg (batch.map (fun e => e.encoded))) := by
  simp [prepare_request_data, prepare_payload_eq, take_finalizers, metadata_spec,
    request_metadata_spec, payload_spec, List.flatMap_map, List.map_map,
    Function.comp_def]

/-- Closed form of process_batch: the request built for a batch. -/
theorem process_batch_eq (cfg : EncCfg) (ft : String → Nat → String) (now : Nat)
    (uuid : String) (opts : S3RequestOptions) (key : S3PartitionKey)
    (batch : List EncodedEvent) :
    process_batch cfg ft now uuid opts (key, batch) =
      some (build_request ft now uuid opts (metadata_spec key batch)
        (request_metadata_spec cfg batch)
        (EncodeResult.uncompressed (payload_spec cfg (batch.map (fun e => e.encoded))))) := by
  simp [process_batch, prepare_request_data_eq]

/-- Every encoded event a successful encode stage emits comes from some
input event of the stream. -/
theorem encode_stream_mem (g : Event → Except Panic EncodedEvent) :
    ∀ (l : List Event) (out : List EncodedEvent), encode_stream g l = Except.ok out →
      ∀ ee ∈ out, ∃ e ∈ l, g e = Except.ok ee := by
  intro l
  induction l with
  | nil =>
    intro out h ee hee
    simp [encode_stream] at h
    subst h
    simp at hee
  | cons e rest ih =>
    intro out h ee hee
    rw [encode_stream] at h
    cases hg : g e with
    | error p => rw [hg] at h; simp at h
    | ok ee2 =>
      rw [hg] at h
      cases hrest : encode_stream g rest with
      | error p => rw [hrest] at h; simp [Except.map] at h
      | ok out2 =>
        rw [hrest] at h
        simp [Except.map] at h
        subst h
        rcases List.mem_cons.mp hee with hh | hh
        · exact ⟨e, List.mem_cons_self e rest, by rw [hg, hh]⟩
        · rcases ih out2 hrest ee hh with ⟨e2, he2, hge2⟩
          exact ⟨e2, List.mem_cons_of_mem e he2, hge2⟩

/-- A successful transform+encode keeps the original event as inner. -/
theorem transform_and_encode_event_inner (tr : Event → Event)
    (ser : Event → Option Bytes) (e : Event) (ee : EncodedEvent)
    (h : transform_and_encode_event tr ser e = Except.ok ee) : ee.inner = e := by
  rw [transform_and_encode_event] at h
  cases hs : ser (tr e) with
  | none => simp [hs] at h
  | some bs =>
    simp [hs] at h
    rw [← h]

/-- Every request a successful build stage emits comes from some keyed
batch. -/
theorem build_requests_mem
    (b : S3PartitionKey × List EncodedEvent → Option S3Request) :
    ∀ (kbs : List (S3PartitionKey × List EncodedEvent)) (reqs : List S3Request),
      build_requests b kbs = Except.ok reqs →
      ∀ r ∈ reqs, ∃ kb ∈ kbs, b kb = some r := by
  intro kbs
  induction kbs with
  | nil =>
    intro reqs h r hr
    simp [build_requests] at h
    subst h
    simp at hr
  | cons kb rest ih =>
    intro reqs h r hr
    rw [build_requests] at h
    cases hb : b kb with
    | none => rw [hb] at h; simp at h
    | some r2 =>
      rw [hb] at h
      cases hrest : build_requests b rest with
      | error p => rw [hrest] at h; simp [Except.map] at h
      | ok out2 =>
        rw [hrest] at h
        simp [Except.map] at h
        subst h
        rcases List.mem_cons.mp hr with hh | hh
        · exact ⟨kb, List.mem_cons_self kb rest, by rw [hb, hh]⟩
        · rcases ih out2 hrest r hh with ⟨kb2, hkb2, hb2⟩
          exact ⟨kb2, List.mem_cons_of_mem kb hkb2, hb2⟩

/-- A batch surviving the filter stage was present, with a some key, in the
batcher output. -/
theorem filter_keyed_mem
    (batches : List (Option S3PartitionKey × List EncodedEvent))
    (kb : S3PartitionKey × List EncodedEvent) (h : kb ∈ filter_keyed batches) :
    (some kb.1, kb.2) ∈ batches := by
  simp [filter_keyed, List.mem_filterMap] at h
  rcases h with ⟨ok, evs, hmem, hmap⟩
  cases ok with
  | none => simp at hmap
  | some k =>
    simp at hmap
    rcases hmap with ⟨hk, hevs⟩
    simpa using hmem

/-- Every event of a batch the batcher emits partitions to that batch's key
and comes from the batcher's input. -/
theorem batched_partitioned_mem (p : EncodedEvent → Option S3PartitionKey)
    (items : List EncodedEvent) (k : Option S3PartitionKey)
    (evs : List EncodedEvent) (h : (k, evs) ∈ batched_partitioned p items) :
    ∀ ee ∈ evs, p ee = k ∧ ee ∈ items := by
  intro ee hee
  simp [batched_partitioned] at h
  rcases h with ⟨k2, _hk2, hpair⟩
  rcases hpair with ⟨hk, hevs⟩
  subst hk
  rw [← hevs] at hee
  have := List.mem_filter.mp hee
  refine ⟨by simpa using this.2, this.1⟩

/-- The finalizer set of a built request is the concatenation of the
finalizers of its batch's events. -/
theorem process_batch_finalizers_eq (cfg : EncCfg) (ft : String → Nat → String)
    (now : Nat) (uuid : String) (opts : S3RequestOptions)
    (kb : S3PartitionKey × List EncodedEvent) (r : S3Request)
    (h : process_batch cfg ft now uuid opts kb = some r) :
    r.metadata.finalizers = kb.2.flatMap (fun ee => ee.inner.finalizers) := by
  obtain ⟨key, batch⟩ := kb
  rw [process_batch_eq] at h
  simp at h
  rw [← h]
  simp [build_request, metadata_spec]

/-- Claim C1: the claim says an encoding failure is fatal only for the single
event — dropped from its batch, finalizer invoked with failure, pipeline
continuing.  The code instead unwraps the encode result: on a stream holding
one event whose encoding fails followed by a routable, encodable sibling,
the whole run aborts with a panic — no request is built for the sibling and
no finalizer is invoked at all. -/
theorem c1_encode_failure_panics_stream :
    run_inner fxTr fxSer fxPart fxCfg fxFt 0 "u" fxOpts [fxBad, fxE2]
      = Except.error Panic.unwrapPanic := by
  decide

/-- Claim C2: the claim says the configured compression is applied to the
payload and the metadata's final transmitted size is the post-compression
length.  The code wraps the payload as EncodeResult.uncompressed and stores
the pre-compression length as both payload size and wire size: with a
gzip-like scheme that compresses the three-byte payload to one byte, the
built request still carries the uncompressed three-byte body, a wire size
of three, and nonetheless the gzip content-encoding label. -/
theorem c2_compression_not_applied :
    ((process_batch fxCfg0 fxFt 0 "u" fxOptsGzip
        (fxKey, [{ inner := fxE2, encoded := [1, 2, 3] }])).map
      (fun r => (r.body, r.requestMetadata.requestEncodedSize,
        r.requestMetadata.requestWireSize, r.contentEncoding))
      = some ([1, 2, 3], 3, 3, some "gzip"))
    ∧ fxOptsGzip.compression.compressFn [1, 2, 3] = [9] :=
  ⟨by decide, by decide⟩

/-- Claim C3, counterexample: the keyless event fxE1 is batched under the
none key by the batcher (contradicting "never batched under a null key"),
and its finalizer never reaches any built request, so even a driver that
fails every request never invokes it — contradicting "finalizer is invoked
with a failure outcome". -/
theorem c3_keyless_event_counterexample :
    (Option.none, [({ inner := fxE1, encoded := [4] } : EncodedEvent)])
        ∈ batched_partitioned (wrapped_partition fxPart)
            [{ inner := fxE1, encoded := [4] }, { inner := fxE2, encoded := [2] }]
    ∧ run_inner fxTr fxSer fxPart fxCfg fxFt 0 "u" fxOpts [fxE1, fxE2] = Except.ok fxReqs
    ∧ (⟨1⟩ : EventFinalizer) ∈ fxE1.finalizers
    ∧ (⟨1⟩ : EventFinalizer) ∉ (driver_invocations (fun _ => false) fxReqs).map Prod.fst :=
  ⟨by decide, by decide, by decide, by decide⟩

/-- Claim C3, amended: an event for which the partitioner returns no key is
grouped under the none key and excluded before request building — it is in
no surviving batch, its finalizers (assuming they are attached only to
unroutable events, as finalizers attach to exactly one logical event) are
in no built request, and no driver response, success or failure, ever
invokes them: the event is dropped silently, with no explicit
failure-outcome invocation. -/
theorem c3_keyless_event_excluded (tr : Event → Event) (ser : Event → Option Bytes)
    (part : Event → Option S3PartitionKey) (cfg : EncCfg)
    (ft : String → Nat → String) (now : Nat) (uuid : String)
    (opts : S3RequestOptions) (input : List Event) (reqs : List S3Request)
    (e : Event)
    (hrun : run_inner tr ser part cfg ft now uuid opts input = Except.ok reqs)
    (hnone : part e = Option.none)
    (hdisj : ∀ e2 ∈ input, ∀ f ∈ e.finalizers, f ∈ e2.finalizers →
      part e2 = Option.none) :
    (∀ (items : List EncodedEvent) (ee : EncodedEvent), ee.inner = e →
        ∀ kb ∈ filter_keyed (batched_partitioned (wrapped_partition part) items),
          ee ∉ kb.2)
    ∧ (∀ r ∈ reqs, ∀ f ∈ e.finalizers, f ∉ r.metadata.finalizers)
    ∧ (∀ (respond : S3Request → Bool) (b : Bool) (f : EventFinalizer),
        f ∈ e.finalizers → (f, b) ∉ driver_invocations respond reqs) := by
  have part1 : ∀ (items : List EncodedEvent) (ee : EncodedEvent), ee.inner = e →
      ∀ kb ∈ filter_keyed (batched_partitioned (wrapped_partition part) items),
        ee ∉ kb.2 := by
    intro items ee hee kb hkb hin
    have h1 := filter_keyed_mem _ kb hkb
    have h2 := batched_partitioned_mem _ items _ _ h1 ee hin
    have h3 : part ee.inner = some kb.1 := h2.1
    rw [hee, hnone] at h3
    exact Option.noConfusion h3
  have part2 : ∀ r ∈ reqs, ∀ f ∈ e.finalizers, f ∉ r.metadata.finalizers := by
    intro r hr f hf hmem
    cases henc : encode_stream (transform_and_encode_event tr ser) input with
    | error p =>
      rw [run_inner, henc] at hrun
      simp [Bind.bind, Except.bind] at hrun
    | ok encoded =>
      rw [run_inner, henc] at hrun
      simp only [Bind.bind, Except.bind] at hrun
      rcases build_requests_mem _ _ _ hrun r hr with ⟨kb, hkb, hpb⟩
      have hfin := process_batch_finalizers_eq cfg ft now uuid opts kb r hpb
      rw [hfin] at hmem
      rcases List.mem_flatMap.mp hmem with ⟨ee, heeb, hfee⟩
      have h1 := filter_keyed_mem _ kb hkb
      have h2 := batched_partitioned_mem _ encoded _ _ h1 ee heeb
      rcases encode_stream_mem _ input encoded henc ee h2.2 with ⟨e0, he0, hge0⟩
      have hinner : ee.inner = e0 := transform_and_encode_event_inner _ _ _ _ hge0
      have hdrop := hdisj e0 he0 f hf (by rw [← hinner]; exact hfee)
      have h3 : part ee.inner = some kb.1 := h2.1
      rw [hinner, hdrop] at h3
      exact Option.noConfusion h3
  refine ⟨part1, part2, ?_⟩
  intro respond b f hf hinv
  rcases List.mem_flatMap.mp hinv with ⟨r, hr, hfr⟩
  rcases List.mem_map.mp hfr with ⟨f2, hf2, heq⟩
  have hff : f2 = f := congrArg Prod.fst heq
  rw [hff] at hf2
  exact part2 r hr f hf hf2

/-- Claim C3, witness: the amended theorem applied to the concrete stream
holding the unroutable event fxE1 and the routable event fxE2. -/
theorem c3_keyless_event_excluded_witness :
    fxPart fxE1 = Option.none ∧
    ((∀ (items : List EncodedEvent) (ee : EncodedEvent), ee.inner = fxE1 →
        ∀ kb ∈ filter_keyed (batched_partitioned (wrapped_partition fxPart) items),
          ee ∉ kb.2)
     ∧ (∀ r ∈ fxReqs, ∀ f ∈ fxE1.finalizers, f ∉ r.metadata.finalizers)
     ∧ (∀ (respond : S3Request → Bool) (b : Bool) (f : EventFinalizer),
         f ∈ fxE1.finalizers → (f, b) ∉ driver_invocations respond fxReqs)) :=
  ⟨by decide,
   c3_keyless_event_excluded fxTr fxSer fxPart fxCfg fxFt 0 "u" fxOpts [fxE1, fxE2]
     fxReqs fxE1 (by decide) (by decide) (by decide)⟩

/-- Claim C4: for a non-empty batch the prepared payload is exactly the
batch prefix, then the event bodies in order with the framer separator
between consecutive events only — exactly length − 1 separators, none after
the last body — then the batch suffix. -/
theorem c4_framing_correct (cfg : EncCfg) (bodies : List Bytes) (h : bodies ≠ []) :
    prepare_payload cfg bodies =
      some (cfg.batchPrefixBytes
        ++ ((framedChunks cfg.sepBytes bodies).map Prod.snd).flatten
        ++ cfg.batchSuffixBytes)
    ∧ ((framedChunks cfg.sepBytes bodies).filter (fun c => c.1)).length
        = bodies.length - 1
    ∧ ((framedChunks cfg.sepBytes bodies).filter (fun c => !c.1)).map Prod.snd = bodies
    ∧ ∀ c, (framedChunks cfg.sepBytes bodies).getLast? = some c → c.1 = false := by
  cases bodies with
  | nil => exact absurd rfl h
  | cons b rest =>
    refine ⟨?_, framedChunks_sep_count cfg.sepBytes (b :: rest),
      framedChunks_bodies_eq cfg.sepBytes (b :: rest),
      framedChunks_last_not_sep cfg.sepBytes (b :: rest)⟩
    rw [prepare_payload_eq, payload_spec, joinWithSep_eq_chunks]

/-- Claim C4, witness: the framing theorem applied to a two-event batch
under the JSON-like encoder configuration. -/
theorem c4_framing_correct_witness :
    (([[1], [2]] : List Bytes) ≠ []) ∧
    (prepare_payload fxCfg [[1], [2]] =
      some (fxCfg.batchPrefixBytes
        ++ ((framedChunks fxCfg.sepBytes [[1], [2]]).map Prod.snd).flatten
        ++ fxCfg.batchSuffixBytes)
    ∧ ((framedChunks fxCfg.sepBytes [[1], [2]]).filter (fun c => c.1)).length
        = [[1], [2]].length - 1
    ∧ ((framedChunks fxCfg.sepBytes [[1], [2]]).filter (fun c => !c.1)).map Prod.snd
        = [[1], [2]]
    ∧ ∀ c, (framedChunks fxCfg.sepBytes [[1], [2]]).getLast? = some c → c.1 = false) :=
  ⟨by decide, c4_framing_correct fxCfg [[1], [2]] (by decide)⟩

/-- Claim C5: for every batch, request preparation succeeds, the built
RequestMetadata's event count equals the batch size, and its payload size
equals the byte length of the concatenated, framed, pre-compression
payload. -/
theorem c5_metadata_consistent (cfg : EncCfg) (key : S3PartitionKey)
    (batch : List EncodedEvent) :
    ∃ m rm payload, prepare_request_data cfg key batch = some (m, rm, payload)
      ∧ rm.eventCount = batch.length
      ∧ rm.requestEncodedSize = payload.length
      ∧ payload = payload_spec cfg (batch.map (fun e => e.encoded)) := by
  refine ⟨_, _, _, prepare_request_data_eq cfg key batch, rfl, ?_, rfl⟩
  simp [request_metadata_spec]

/-- Claim C6: for every batch, the built metadata's finalizer set is exactly
the concatenation of the finalizers of the batch's events — the very events
whose encoded bytes make up the framed payload — and the trait-path
split_input extracts finalizers the same way. -/
theorem c6_finalizer_set_exact (cfg : EncCfg) (key : S3PartitionKey)
    (batch : List EncodedEvent) :
    ∃ m rm payload, prepare_request_data cfg key batch = some (m, rm, payload)
      ∧ m.finalizers = batch.flatMap (fun e => e.inner.finalizers)
      ∧ payload = payload_spec cfg (batch.map (fun e => e.encoded))
      ∧ ∀ evs : List Event, (split_input (key, evs)).1.finalizers
          = evs.flatMap (fun e => e.finalizers) := by
  refine ⟨_, _, _, prepare_request_data_eq cfg key batch, rfl, rfl, ?_⟩
  intro evs
  simp [split_input, take_finalizers]

/-- Claim C7: for every built request, the destination object key is the
partition key's routing prefix, then the formatted wall-clock timestamp per
the configured pattern, then — when filename_append_uuid is set — a dash and
the uniqueness token, then a dot and the extension taken from the explicit
override when present and from the compression scheme's canonical extension
otherwise. -/
theorem c7_destination_identifier (cfg : EncCfg) (ft : String → Nat → String)
    (now : Nat) (uuid : String) (opts : S3RequestOptions) (key : S3PartitionKey)
    (batch : List EncodedEvent) :
    ∃ r, process_batch cfg ft now uuid opts (key, batch) = some r
      ∧ r.metadata.s3Key =
          key.keyPrefixStr
          ++ (if opts.filenameAppendUuid
              then ft opts.filenameTimeFormat now ++ "-" ++ uuid
              else ft opts.filenameTimeFormat now)
          ++ "." ++ opts.filenameExtension.getD opts.compression.ext := by
  refine ⟨_, process_batch_eq cfg ft now uuid opts key batch, ?_⟩
  simp [build_request, metadata_spec]

/-- Claim C8: for every built request, the destination options equal the
builder-wide default in every field except the server-side-encryption key
id, which is overridden by the value carried on the partition key. -/
theorem c8_destination_options_override (cfg : EncCfg) (ft : String → Nat → String)
    (now : Nat) (uuid : String) (opts : S3RequestOptions) (key : S3PartitionKey)
    (batch : List EncodedEvent) :
    ∃ r, process_batch cfg ft now uuid opts (key, batch) = some r
      ∧ r.options.ssekmsKeyId = key.ssekmsKeyId
      ∧ r.options.restOptions = opts.apiOptions.restOptions := by
  refine ⟨_, process_batch_eq cfg ft now uuid opts key batch, ?_, ?_⟩ <;>
    simp [build_request, metadata_spec]

/-- Claim C9: when serialization of the transformed copy succeeds, the
transform+encode stage returns exactly the untouched original event paired
with the serialization of the transformed copy — the copy itself is not
retained. -/
theorem c9_transform_copy_encode_only (tr : Event → Event)
    (ser : Event → Option Bytes) (e : Event) (bs : Bytes)
    (h : ser (tr e) = some bs) :
    transform_and_encode_event tr ser e = Except.ok { inner := e, encoded := bs } := by
  simp [transform_and_encode_event, h]

/-- Claim C9, witness: the transform stage applied to a concrete event with
a label-appending transformer and a length serializer. -/
theorem c9_transform_copy_encode_only_witness :
    fxSer9 (fxTr9 fxE9) = some [2] ∧
    transform_and_encode_event fxTr9 fxSer9 fxE9
      = Except.ok { inner := fxE9, encoded := [2] } :=
  ⟨by decide, c9_transform_copy_encode_only fxTr9 fxSer9 fxE9 [2] (by decide)⟩

/-- Claim C10: on an empty batch, payload preparation succeeds without
underflow, emits no separator, and returns exactly the batch prefix followed
immediately by the batch suffix. -/
theorem c10_empty_batch_payload (cfg : EncCfg) :
    prepare_payload cfg [] = some (cfg.batchPrefixBytes ++ cfg.batchSuffixBytes) := by
  simp [prepare_payload, prepare_payload_loop]

end VectorS3
